import Mathlib

/-!
Verification development for the kip pod-dispatch core: the package builder
(`makeDeployPackage`), configmap/secret volume projection (`getConfigMapFiles`,
`getSecretFiles`), pod volume deployment (`deployPodVolumes`), resolv.conf
generation (`createResolvconf`), boot-image tag parsing and image resolution
(`BootImageTags`, `FilterImages`, `SortImages`, `GetBestImage`), and cloud-init
file rendering (`cloudinitfile.File.Contents`).

Go values are modelled as follows: strings are Lean `String`s, byte slices are
`List Nat` (each element a byte value), Go maps are association lists
(`List (String × α)`) accessed through `mapLookup` and updated through
`mapInsert` (Go map assignment semantics: replace the binding if the key is
present, otherwise add it), `int32`/`int64` fields that are never subject to
arithmetic are `Int`, and fallible functions return `Except String α`.
-/

namespace Kip

/-- UTF-8 encoding of one character, as byte values.  Go's `[]byte(s)`
conversion yields the UTF-8 bytes of the string. -/
def charUTF8 (c : Char) : List Nat :=
  let n := c.toNat
  if n < 128 then [n]
  else if n < 2048 then [192 + n / 64, 128 + n % 64]
  else if n < 65536 then [224 + n / 4096, 128 + (n / 64) % 64, 128 + n % 64]
  else [240 + n / 262144, 128 + (n / 4096) % 64, 128 + (n / 64) % 64, 128 + n % 64]

/-- The bytes of a Go string: UTF-8 encoding (Go's `[]byte(s)`). -/
def strBytes (s : String) : List Nat :=
  (s.toList.map charUTF8).foldr (· ++ ·) []

/-- Go map read `m[k]`: the value bound to `k`, if any. -/
def mapLookup (k : String) : List (String × α) → Option α
  | [] => none
  | (k', v) :: rest => if k = k' then some v else mapLookup k rest

/-- Go map assignment `m[k] = v`: replace the binding for `k` if present,
otherwise append a new binding. -/
def mapInsert (m : List (String × α)) (k : String) (v : α) : List (String × α) :=
  match m with
  | [] => [(k, v)]
  | (k', v') :: rest => if k' = k then (k, v) :: rest else (k', v') :: mapInsert rest k v

theorem mapLookup_mapInsert (m : List (String × α)) (k k' : String) (v : α) :
    mapLookup k' (mapInsert m k v) = if k' = k then some v else mapLookup k' m := by
  induction m with
  | nil => simp [mapInsert, mapLookup]
  | cons p rest ih =>
    obtain ⟨k₀, v₀⟩ := p
    by_cases h0 : k₀ = k
    · subst h0
      by_cases h1 : k' = k₀ <;> simp [mapInsert, mapLookup, h1]
    · by_cases h1 : k' = k₀
      · subst h1
        simp [mapInsert, mapLookup, h0, Ne.symm h0]
      · simp [mapInsert, mapLookup, h0, h1, ih]

theorem mapInsert_keys (m : List (String × α)) (k : String) (v : α) :
    (mapInsert m k v).map Prod.fst =
      if k ∈ m.map Prod.fst then m.map Prod.fst else m.map Prod.fst ++ [k] := by
  induction m with
  | nil => simp [mapInsert]
  | cons p rest ih =>
    obtain ⟨k₀, v₀⟩ := p
    by_cases h0 : k₀ = k
    · subst h0; simp [mapInsert]
    · by_cases h1 : k ∈ rest.map Prod.fst <;>
        simp [mapInsert, h0, Ne.symm h0, h1, ih]

theorem mapInsert_nodup_keys (m : List (String × α)) (k : String) (v : α)
    (h : (m.map Prod.fst).Nodup) : ((mapInsert m k v).map Prod.fst).Nodup := by
  rw [mapInsert_keys]
  by_cases h1 : k ∈ m.map Prod.fst
  · simpa [h1] using h
  · simpa [h1, List.nodup_append] using h

/-- Go's `strings.Split(s, sep)` for a one-character separator, on the
character list of the string: split at every occurrence of `sep`, keeping empty
fields; the empty input yields one empty field. -/
def splitChar (sep : Char) : List Char → List (List Char)
  | [] => [[]]
  | c :: rest =>
    match splitChar sep rest with
    | [] => [[]]
    | h :: t => if c = sep then [] :: h :: t else (c :: h) :: t

/-- Inverse direction of `splitChar`: interleave the separator between fields. -/
def joinSep (sep : Char) : List (List Char) → List Char
  | [] => []
  | [c] => c
  | c :: c' :: rest => c ++ sep :: joinSep sep (c' :: rest)

theorem splitChar_ne_nil (sep : Char) (l : List Char) : splitChar sep l ≠ [] := by
  cases l with
  | nil => simp [splitChar]
  | cons c rest =>
    simp only [splitChar]
    rcases h : splitChar sep rest with _ | ⟨h', t⟩
    · simp
    · by_cases hc : c = sep <;> simp [hc]

theorem splitChar_no_sep (sep : Char) (l : List Char) (h : sep ∉ l) :
    splitChar sep l = [l] := by
  induction l with
  | nil => simp [splitChar]
  | cons c rest ih =>
    simp at h
    simp [splitChar, ih h.2, Ne.symm h.1]

theorem splitChar_append (sep : Char) (A rest : List Char) (h : sep ∉ A) :
    splitChar sep (A ++ sep :: rest) = A :: splitChar sep rest := by
  induction A with
  | nil =>
    simp only [List.nil_append, splitChar, if_pos rfl]
    rcases hs : splitChar sep rest with _ | ⟨h', t⟩
    · exact absurd hs (splitChar_ne_nil sep rest)
    · simp
  | cons c A' ih =>
    simp at h
    simp only [List.cons_append, splitChar]
    rw [show A'.append (sep :: rest) = A' ++ sep :: rest from rfl, ih h.2]
    simp [Ne.symm h.1]

theorem joinSep_splitChar (sep : Char) (l : List Char) :
    joinSep sep (splitChar sep l) = l := by
  induction l with
  | nil => simp [splitChar, joinSep]
  | cons c rest ih =>
    simp only [splitChar]
    rcases h : splitChar sep rest with _ | ⟨h', t⟩
    · exact absurd h (splitChar_ne_nil sep rest)
    · rw [h] at ih
      by_cases hc : c = sep
      · subst hc
        simpa [joinSep] using ih
      · cases t with
        | nil => simpa [joinSep, hc] using ih
        | cons t0 ts => simpa [joinSep, hc] using ih

/-- One step of Go `path.Clean`'s component processing: the stack of output
components is kept in reverse order.  `""` and `"."` components are dropped;
`".."` pops a non-`".."` component, is dropped at the root of a rooted path,
and is kept otherwise; every other component is pushed. -/
def cleanComps (rooted : Bool) : List (List Char) → List (List Char) → List (List Char)
  | [], stack => stack
  | c :: rest, stack =>
    if c = [] ∨ c = ['.'] then cleanComps rooted rest stack
    else if c = ['.', '.'] then
      match stack with
      | [] => if rooted then cleanComps rooted rest [] else cleanComps rooted rest [['.', '.']]
      | top :: s' =>
        if top = ['.', '.'] then cleanComps rooted rest (c :: stack)
        else cleanComps rooted rest s'
    else cleanComps rooted rest (c :: stack)

/-- Go's `path.Clean` (equivalently `filepath.Clean` on a Unix target):
lexical cleaning of a slash-separated path.  The empty path cleans to `"."`;
a path is rooted iff it starts with `'/'`; the cleaned components are joined
with single slashes; an empty result becomes `"/"` (rooted) or `"."`. -/
def goPathClean (s : String) : String :=
  if s = "" then "."
  else
    let cs := s.toList
    let rooted := cs.head? = some '/'
    let comps := (cleanComps rooted (splitChar '/' cs) []).reverse
    let out := String.mk (joinSep '/' comps)
    if rooted then (if out = "" then "/" else "/" ++ out)
    else (if out = "" then "." else out)

/-- Go's `filepath.Join` on a Unix target: drop leading empty elements, join
the rest with slashes, and `Clean` the result; all-empty input yields `""`. -/
def goFilepathJoin (elems : List String) : String :=
  match elems.dropWhile (· = "") with
  | [] => ""
  | es => goPathClean (String.intercalate "/" es)

/-- `tar.TypeReg`, the regular-file type flag byte `'0'`. -/
def tarTypeReg : Nat := 48

/-- One file of a deploy package: contents and mode (Go `packageFile`). -/
structure packageFile where
  data : List Nat
  mode : Int
deriving DecidableEq, Repr

/-- One entry of the tar stream written by `makeDeployPackage`: the header
fields set by the Go code plus the file bytes that follow the header. -/
structure TarEntry where
  name : String
  mode : Int
  size : Nat
  typeflag : Nat
  uid : Int
  gid : Int
  data : List Nat
deriving DecidableEq, Repr

/-- `makeDeployPackage`: builds the deploy package for a map of package
files.  The Go function writes a gzip-compressed tar stream into an in-memory
buffer; the model keeps the sequence of tar entries (header fields and file
bytes) rather than the compressed byte stream.  Writes to the in-memory
buffer cannot fail, so the function is total here. -/
def makeDeployPackage (contents : List (String × packageFile)) : List TarEntry :=
  contents.map fun pf =>
    { name := goFilepathJoin [".", "ROOTFS", pf.1]
      mode := pf.2.mode
      size := pf.2.data.length
      typeflag := tarTypeReg
      uid := 0
      gid := 0
      data := pf.2.data }

/-- `defaultVolumeFileMode = int32(0644)`. -/
def defaultVolumeFileMode : Int := 0o644

/-- `api.KeyToPath`: a key projected to a path with an optional mode. -/
structure KeyToPath where
  Key : String
  Path : String
  Mode : Option Int
deriving DecidableEq, Repr

/-- `api.ConfigMapVolumeSource` (with the embedded `LocalObjectReference`
name inlined). -/
structure ConfigMapVolumeSource where
  Name : String
  Items : List KeyToPath
  DefaultMode : Option Int
  Optional : Option Bool
deriving DecidableEq, Repr

/-- `api.SecretVolumeSource`. -/
structure SecretVolumeSource where
  SecretName : String
  Items : List KeyToPath
  DefaultMode : Option Int
  Optional : Option Bool
deriving DecidableEq, Repr

/-- `v1.ConfigMap`: object metadata (name, namespace) plus the `Data`
(string values) and `BinaryData` (byte values) maps. -/
structure V1ConfigMap where
  Name : String
  Namespace : String
  Data : List (String × String)
  BinaryData : List (String × List Nat)
deriving DecidableEq, Repr

/-- `v1.Secret`: object metadata plus the `Data` (byte values) map. -/
structure V1Secret where
  Name : String
  Namespace : String
  Data : List (String × List Nat)
deriving DecidableEq, Repr

/-- The mode used for an item: `*item.Mode` when non-nil, else the volume's
default mode. -/
def itemMode (defaultMode : Int) (item : KeyToPath) : Int :=
  match item.Mode with
  | some m => m
  | none => defaultMode

/-- The archive path of an item: `item.Path` when non-empty, else `item.Key`. -/
def archivePath (item : KeyToPath) : String :=
  if item.Path = "" then item.Key else item.Path

/-- Go tri-state `*bool`: `Optional != nil && *Optional`. -/
def optBool : Option Bool → Bool
  | some b => b
  | none => false

/-- The item list processed by `getConfigMapFiles`: when `cmVol.Items` is
empty, one key-only item per key of `Data` then per key of `BinaryData`;
otherwise `cmVol.Items` itself. -/
def cmVolItems (cmVol : ConfigMapVolumeSource) (cm : V1ConfigMap) : List KeyToPath :=
  if cmVol.Items = [] then
    cm.Data.map (fun p => ⟨p.1, "", none⟩) ++ cm.BinaryData.map (fun p => ⟨p.1, "", none⟩)
  else cmVol.Items

/-- The loop body of `getConfigMapFiles` over the item list, with the
accumulated package-file map: look the key up in `Data` first, then in
`BinaryData`; a missing key is skipped when the source is optional and is a
`references non-existent config key` error otherwise. -/
def processCMItems (cmVol : ConfigMapVolumeSource) (cm : V1ConfigMap)
    (optional : Bool) (defaultMode : Int) :
    List KeyToPath → List (String × packageFile) →
      Except String (List (String × packageFile))
  | [], acc => .ok acc
  | item :: rest, acc =>
    match mapLookup item.Key cm.Data with
    | some stringData =>
      processCMItems cmVol cm optional defaultMode rest
        (mapInsert acc (archivePath item) ⟨strBytes stringData, itemMode defaultMode item⟩)
    | none =>
      match mapLookup item.Key cm.BinaryData with
      | some binaryData =>
        processCMItems cmVol cm optional defaultMode rest
          (mapInsert acc (archivePath item) ⟨binaryData, itemMode defaultMode item⟩)
      | none =>
        if optional then processCMItems cmVol cm optional defaultMode rest acc
        else .error ("volume " ++ cmVol.Name ++ " items " ++ cm.Namespace ++ "/" ++
          cm.Name ++ " references non-existent config key: " ++ item.Key)

/-- `getConfigMapFiles`: the package-file map projected from a configmap by a
configmap volume source. -/
def getConfigMapFiles (cmVol : ConfigMapVolumeSource) (cm : V1ConfigMap) :
    Except String (List (String × packageFile)) :=
  let defaultMode := match cmVol.DefaultMode with
    | some m => m
    | none => defaultVolumeFileMode
  processCMItems cmVol cm (optBool cmVol.Optional) defaultMode (cmVolItems cmVol cm) []

/-- The item list processed by `getSecretFiles`: when `secVol.Items` is empty,
one key-only item per key of the secret's `Data`; otherwise `secVol.Items`. -/
def secVolItems (secVol : SecretVolumeSource) (sec : V1Secret) : List KeyToPath :=
  if secVol.Items = [] then sec.Data.map (fun p => ⟨p.1, "", none⟩)
  else secVol.Items

/-- The loop body of `getSecretFiles` over the item list: look the key up in
the secret's `Data` (raw bytes, written as-is); a missing key is skipped when
the source is optional and is an error otherwise. -/
def processSecItems (secVol : SecretVolumeSource) (sec : V1Secret)
    (optional : Bool) (defaultMode : Int) :
    List KeyToPath → List (String × packageFile) →
      Except String (List (String × packageFile))
  | [], acc => .ok acc
  | item :: rest, acc =>
    match mapLookup item.Key sec.Data with
    | some binaryData =>
      processSecItems secVol sec optional defaultMode rest
        (mapInsert acc (archivePath item) ⟨binaryData, itemMode defaultMode item⟩)
    | none =>
      if optional then processSecItems secVol sec optional defaultMode rest acc
      else .error ("volume " ++ secVol.SecretName ++ " items " ++ sec.Namespace ++ "/" ++
        sec.Name ++ " references non-existent config key: " ++ item.Key)

/-- `getSecretFiles`: the package-file map projected from a secret by a
secret volume source. -/
def getSecretFiles (secVol : SecretVolumeSource) (sec : V1Secret) :
    Except String (List (String × packageFile)) :=
  let defaultMode := match secVol.DefaultMode with
    | some m => m
    | none => defaultVolumeFileMode
  processSecItems secVol sec (optBool secVol.Optional) defaultMode (secVolItems secVol sec) []

/-- `runtimeapi.DNSConfig`: nameservers, search domains, resolver options. -/
structure DNSConfig where
  Servers : List String
  Searches : List String
  Options : List String
deriving DecidableEq, Repr

/-- `util.WrapError(err, msg)` (the `util` package is outside these sources).
Modelled from the spec: a wrapped error carries the context message in front
of the underlying error. -/
def wrapError (msg err : String) : String := msg ++ ": " ++ err

/-- `bytes.Buffer.WriteString`: appends to the buffer.  Per its documented Go
contract the returned error is always nil, which the model keeps as `none` so
that the callers' error checks can be translated as written. -/
def bufferWriteString (buf s : String) : String × Option String := (buf ++ s, none)

/-- Go's `strings.Join(elems, sep)`. -/
def goStringsJoin (elems : List String) (sep : String) : String :=
  match elems with
  | [] => ""
  | [a] => a
  | a :: rest => a ++ sep ++ goStringsJoin rest sep

/-- The `nameserver` loop of `createResolvconf`: one
`"nameserver <ip>\n"` buffer write per server. -/
def writeServers (podName buf : String) : List String → Except String String
  | [] => .ok buf
  | srv :: rest =>
    match bufferWriteString buf ("nameserver " ++ srv ++ "\n") with
    | (buf', none) => writeServers podName buf' rest
    | (_, some e) => .error (wrapError ("creating DNS config for pod " ++ podName) e)

/-- `createResolvconf`: renders the resolv.conf bytes for a DNS config —
`nameserver` lines, then a `search` line iff there are searches, then an
`options` line iff there are options. -/
def createResolvconf (podName : String) (dnsconf : DNSConfig) :
    Except String (List Nat) :=
  match writeServers podName "" dnsconf.Servers with
  | .error e => .error e
  | .ok buf1 =>
    let search := goStringsJoin dnsconf.Searches " "
    let afterSearch : Except String String :=
      if dnsconf.Searches.length > 0 then
        match bufferWriteString buf1 ("search " ++ search ++ "\n") with
        | (buf', none) => .ok buf'
        | (_, some e) => .error (wrapError ("creating DNS config for pod " ++ podName) e)
      else .ok buf1
    match afterSearch with
    | .error e => .error e
    | .ok buf2 =>
      let options := goStringsJoin dnsconf.Options " "
      if dnsconf.Options.length > 0 then
        match bufferWriteString buf2 ("options " ++ options ++ "\n") with
        | (buf', none) => .ok (strBytes buf')
        | (_, some e) => .error (wrapError ("creating DNS config for pod " ++ podName) e)
      else .ok (strBytes buf2)

/-- The package map built by `deployResolvconf` around the resolv.conf bytes:
a single file at `/etc/resolv.conf` with mode `0644`, passed through
`makeDeployPackage`. -/
def resolvconfPackage (data : List Nat) : List TarEntry :=
  makeDeployPackage [("/etc/resolv.conf", ⟨data, 0o644⟩)]

/-- `cloud.Image`: a candidate boot image. -/
structure Image where
  Id : String
  Name : String
deriving DecidableEq, Repr

/-- `cloud.BootImageTags`: the five-tuple parsed from an image name. -/
structure BootImageTags where
  Company : String
  Product : String
  Version : String
  Date : String
  Time : String
deriving DecidableEq, Repr

/-- The zero value `BootImageTags{}`. -/
def zeroBIT : BootImageTags := ⟨"", "", "", "", ""⟩

/-- `BootImageTags.String`: the five fields joined by `-`. -/
def BootImageTags.render (bit : BootImageTags) : String :=
  bit.Company ++ "-" ++ bit.Product ++ "-" ++ bit.Version ++ "-" ++ bit.Date ++ "-" ++ bit.Time

/-- `BootImageTags.Set`: split the string on `-` and assign up to five fields
of the receiver in order (Go `strings.Split` never returns an empty slice, so
the first field is always assigned). -/
def BootImageTags.Set (bit : BootImageTags) (s : String) : BootImageTags :=
  match (splitChar '-' s.toList).map (fun cs => String.mk cs) with
  | [] => bit
  | [c] => { bit with Company := c }
  | [c, p] => { bit with Company := c, Product := p }
  | [c, p, v] => { bit with Company := c, Product := p, Version := v }
  | [c, p, v, d] => { bit with Company := c, Product := p, Version := v, Date := d }
  | c :: p :: v :: d :: t :: _ => { Company := c, Product := p, Version := v, Date := d, Time := t }

/-- `BootImageTags.Matches`: the receiver matches the request `input` iff
every non-empty field of `input` equals the receiver's field. -/
def BootImageTags.Matches (bit input : BootImageTags) : Bool :=
  if input.Company ≠ "" ∧ bit.Company ≠ input.Company then false
  else if input.Product ≠ "" ∧ bit.Product ≠ input.Product then false
  else if input.Version ≠ "" ∧ bit.Version ≠ input.Version then false
  else if input.Date ≠ "" ∧ bit.Date ≠ input.Date then false
  else if input.Time ≠ "" ∧ bit.Time ≠ input.Time then false
  else true

/-- The digit scan of Go's `strconv.ParseUint(s, 10, 32)`, keeping the value
the caller uses when it ignores the error: a non-digit character anywhere
yields 0 (syntax error), and a scan that exceeds `2^32 - 1` stops and yields
`2^32 - 1` (range error). -/
def goParseUint32Loop : List Char → Nat → Nat
  | [], n => n
  | c :: rest, n =>
    if c.isDigit then
      let n1 := n * 10 + (c.toNat - 48)
      if n1 > 4294967295 then 4294967295 else goParseUint32Loop rest n1
    else 0

/-- The value of `strconv.ParseUint(s, 10, 32)` with the error ignored, as in
`SortImages` (0 on syntax error, `2^32 - 1` on range overflow). -/
def goParseUint32 (s : String) : Nat := goParseUint32Loop s.toList 0

/-- Decimal value of a digit list. -/
def digitsVal (cs : List Char) : Nat := cs.foldl (fun n c => n * 10 + (c.toNat - 48)) 0

/-- True iff every character is an ASCII digit. -/
def allDigits (cs : List Char) : Bool := cs.all (fun c => c.isDigit)

/-- Gregorian leap-year rule, as Go's `time` package applies to every year. -/
def isLeapYear (y : Nat) : Bool := y % 4 == 0 && (y % 100 != 0 || y % 400 == 0)

/-- Days in a month, as Go's `time` package validates the day field. -/
def daysInMonth (y m : Nat) : Nat :=
  if m = 2 then (if isLeapYear y then 29 else 28)
  else if m = 4 ∨ m = 6 ∨ m = 9 ∨ m = 11 then 30 else 31

/-- Order-preserving encoding of a calendar time `(y, mo, d, h, mi, s)`:
lexicographic order of components (equivalently, chronological order of the
UTC instants for in-range components) becomes numeric order. -/
def encodeTime (y mo d h mi s : Nat) : Nat :=
  ((((y * 100 + mo) * 100 + d) * 100 + h) * 100 + mi) * 100 + s

/-- The year field of the layout `2006`: four characters, either all digits or
`+` followed by digits (Go's internal `atoi` accepts a sign).  A `-` sign
cannot occur in `BootImageTags.Timestamp`'s input, because the `Date` field is
produced by splitting an image name on `-`, so negative years are not
modelled. -/
def parseYear4 (cs : List Char) : Option Nat :=
  if cs.length = 4 then
    if allDigits cs then some (digitsVal cs)
    else
      match cs with
      | '+' :: rest => if allDigits rest then some (digitsVal rest) else none
      | _ => none
  else none

/-- `time.Parse("20060102 150405", date ++ " " ++ time)`, as an order
  encoding: `some` of the `encodeTime` key on success, `none` on any parse or
  validation error (month, day, hour, minute, second ranges, exact layout
  length).  Success requires the date to be 8 characters and the time 6, since
  otherwise the space separator or a fixed-width number fails to parse. -/
def goTimeParse (date time : String) : Option Nat :=
  let d := date.toList
  let t := time.toList
  if d.length = 8 ∧ t.length = 6 then
    match parseYear4 (d.take 4) with
    | none => none
    | some y =>
      if allDigits (d.drop 4) ∧ allDigits t then
        let mo := digitsVal ((d.drop 4).take 2)
        let da := digitsVal (d.drop 6)
        let h := digitsVal (t.take 2)
        let mi := digitsVal ((t.drop 2).take 2)
        let s := digitsVal (t.drop 4)
        if 1 ≤ mo ∧ mo ≤ 12 ∧ 1 ≤ da ∧ da ≤ daysInMonth y mo ∧ h ≤ 23 ∧ mi ≤ 59 ∧ s ≤ 59
        then some (encodeTime y mo da h mi s) else none
      else none
  else none

/-- `BootImageTags.Timestamp` as used by `SortImages`: the time key of
`Date ++ " " ++ Time` under the layout `20060102 150405`, falling back to
epoch zero (`time.Unix(0, 0)`, i.e. 1970-01-01 00:00:00 UTC) on parse error. -/
def bitTimestampKey (bit : BootImageTags) : Nat :=
  match goTimeParse bit.Date bit.Time with
  | some k => k
  | none => encodeTime 1970 1 1 0 0 0

/-- The version component of `SortImages`'s comparison for one image name. -/
def imageVersionKey (name : String) : Nat :=
  goParseUint32 (BootImageTags.Set zeroBIT name).Version

/-- The timestamp component of `SortImages`'s comparison for one image name. -/
def imageTimeKey (name : String) : Nat :=
  bitTimestampKey (BootImageTags.Set zeroBIT name)

/-- The `less` closure passed to `sort.Slice` in `SortImages`: parse both
names, compare versions, then timestamps. -/
def imageLess (i j : Image) : Bool :=
  if imageVersionKey i.Name ≠ imageVersionKey j.Name then
    decide (imageVersionKey i.Name < imageVersionKey j.Name)
  else decide (imageTimeKey i.Name < imageTimeKey j.Name)

/-- `FilterImages`: keep the images whose parsed name matches the request. -/
def FilterImages (images : List Image) (tags : BootImageTags) : List Image :=
  images.filter (fun img => (BootImageTags.Set zeroBIT img.Name).Matches tags)

/-- The non-strict order corresponding to `imageLess`: `a` may come before
`b` in a `sort.Slice` result iff `less b a` is false. -/
def imageLE (a b : Image) : Prop := (!imageLess b a) = true

instance : DecidableRel imageLE :=
  fun a b => inferInstanceAs (Decidable ((!imageLess b a) = true))

/-- `SortImages`: `sort.Slice(images, less)`.  `sort.Slice` promises some
permutation that is pairwise nondecreasing with respect to `less`; the model
fixes one such permutation (an insertion sort by the complement of `less`),
and the theorems below rely only on sortedness and permutation. -/
def SortImages (images : List Image) : List Image :=
  images.insertionSort imageLE

/-- `GetBestImage`: filter, sort, and take the id of the last element; error
when nothing matches. -/
def GetBestImage (images : List Image) (tags : BootImageTags) :
    Except String String :=
  let sorted := SortImages (FilterImages images tags)
  if h : sorted = [] then .error "No image matching tags found"
  else .ok ((sorted.getLast h).Id)

namespace cloudinitfile

/-- `cc.File` from the cloud-init config library: one file to write. -/
structure CCFile where
  Content : String
  Path : String
  Owner : String
  RawFilePermissions : String
deriving DecidableEq, Repr

/-- `cc.CloudConfig`, restricted to the `WriteFiles` field, which is the only
field `cloudinitfile.File` manipulates; the remaining fields ride along
unchanged into the marshaller and are captured by quantifying over the
marshalling function. -/
structure CloudConfig where
  WriteFiles : List CCFile
deriving DecidableEq, Repr

/-- `cloudinitfile.File`: the user's cloud config plus the kip-managed files
(a Go map from path to file, modelled as an association list). -/
structure File where
  userData : CloudConfig
  kipFiles : List (String × CCFile)
deriving DecidableEq, Repr

/-- The literal `cloudInitHeader = []byte("#cloud-config\n")`. -/
def cloudInitHeader : List Nat := strBytes "#cloud-config\n"

/-- `maxCloudInitSize = 16000`. -/
def maxCloudInitSize : Nat := 16000

/-- The merged config built inside `File.Contents`: the user's write-files
followed by the kip files, substituted into the user config. -/
def File.mergedConfig (f : File) : CloudConfig :=
  { f.userData with WriteFiles := f.userData.WriteFiles ++ f.kipFiles.map Prod.snd }

/-- `File.Contents`: marshal the merged config (the YAML marshaller
`yaml.Marshal` is external library code and is passed in as `marshal`),
prepend the `#cloud-config\n` header, and fail when the result exceeds
`maxCloudInitSize` bytes. -/
def File.Contents (marshal : CloudConfig → Except String (List Nat)) (f : File) :
    Except String (List Nat) :=
  match marshal f.mergedConfig with
  | .error e => .error e
  | .ok mergedContent =>
    let cloudInitContent := cloudInitHeader ++ mergedContent
    if cloudInitContent.length > maxCloudInitSize then
      .error "Cloud init data length is over 16K"
    else .ok cloudInitContent

end cloudinitfile

/-- The error returned by the external resource manager's getters:
`errors.IsNotFound` distinguishes the not-found case. -/
inductive FetchErr where
  | notFound
  | other (msg : String)
deriving DecidableEq, Repr

/-- Rendering of a fetch error, for wrapping into a returned error message. -/
def fetchErrMsg : FetchErr → String
  | .notFound => "not found"
  | .other m => m

/-- `api.Volume`, restricted to the sources `deployPodVolumes` handles
directly (other variants take neither branch of the loop body). -/
structure Volume where
  Name : String
  ConfigMap : Option ConfigMapVolumeSource
  Secret : Option SecretVolumeSource
deriving DecidableEq, Repr

/-- `api.Pod`, restricted to the fields `deployPodVolumes` reads. -/
structure Pod where
  Name : String
  Namespace : String
  Volumes : List Volume
deriving DecidableEq, Repr

/-- One `client.Deploy(podName, volName, payload)` call made to the cell
agent, with the tar entries of the payload. -/
def DeployCall := String × String × List TarEntry
deriving instance DecidableEq for DeployCall

/-- The empty configmap substituted when an optional configmap is not found:
same name and namespace, no data. -/
def emptyV1ConfigMap (ns name : String) : V1ConfigMap :=
  { Name := name, Namespace := ns, Data := [], BinaryData := [] }

/-- The empty secret substituted when an optional secret is not found. -/
def emptyV1Secret (ns name : String) : V1Secret :=
  { Name := name, Namespace := ns, Data := [] }

/-- The tail of the configmap branch of `deployPodVolumes`'s loop body, after
the configmap object is in hand: project the files, build the package, and
deploy it.  Returns the `Deploy` calls made for this volume (zero or one) and
the error, if any. -/
def handleConfigMapVolume (deploy : String → String → List TarEntry → Option String)
    (pod : Pod) (vol : Volume) (cmVol : ConfigMapVolumeSource) (cm : V1ConfigMap) :
    List DeployCall × Option String :=
  match getConfigMapFiles cmVol cm with
  | .error e =>
    ([], some (wrapError ("couldn't get configMap payload " ++ pod.Namespace ++ "/" ++ cmVol.Name) e))
  | .ok files =>
    let payload := makeDeployPackage files
    match deploy pod.Name vol.Name payload with
    | none => ([(pod.Name, vol.Name, payload)], none)
    | some e =>
      ([(pod.Name, vol.Name, payload)],
        some (wrapError ("error deploying package " ++ vol.Name ++ " to " ++ pod.Name) e))

/-- The tail of the secret branch of `deployPodVolumes`'s loop body. -/
def handleSecretVolume (deploy : String → String → List TarEntry → Option String)
    (pod : Pod) (vol : Volume) (secVol : SecretVolumeSource) (sec : V1Secret) :
    List DeployCall × Option String :=
  match getSecretFiles secVol sec with
  | .error e =>
    ([], some (wrapError ("couldn't get secret payload " ++ pod.Namespace ++ "/" ++ secVol.SecretName) e))
  | .ok files =>
    let payload := makeDeployPackage files
    match deploy pod.Name vol.Name payload with
    | none => ([(pod.Name, vol.Name, payload)], none)
    | some e =>
      ([(pod.Name, vol.Name, payload)],
        some (wrapError ("error deploying package " ++ vol.Name ++ " to " ++ pod.Name) e))

/-- The loop of `deployPodVolumes` over the pod's volumes, accumulating the
`Deploy` calls made so far.  `getCM`/`getSec` are the external resource
manager's getters and `deploy` the cell-agent client; a fetch failure other
than not-found-and-optional aborts with a wrapped error, while a not-found
fetch of an optional source substitutes the empty object and continues. -/
def deployVolumesAux (getCM : String → String → Except FetchErr V1ConfigMap)
    (getSec : String → String → Except FetchErr V1Secret)
    (deploy : String → String → List TarEntry → Option String)
    (pod : Pod) : List Volume → List DeployCall → List DeployCall × Option String
  | [], acc => (acc, none)
  | vol :: rest, acc =>
    match vol.ConfigMap with
    | some cmVol =>
      let optional := optBool cmVol.Optional
      let step := fun (cm : V1ConfigMap) =>
        match handleConfigMapVolume deploy pod vol cmVol cm with
        | (calls, some e) => (acc ++ calls, some e)
        | (calls, none) => deployVolumesAux getCM getSec deploy pod rest (acc ++ calls)
      match getCM cmVol.Name pod.Namespace with
      | .error e =>
        if e = FetchErr.notFound ∧ optional = true then
          step (emptyV1ConfigMap pod.Namespace cmVol.Name)
        else
          (acc, some (wrapError ("Couldn't get configMap " ++ pod.Namespace ++ "/" ++ cmVol.Name)
            (fetchErrMsg e)))
      | .ok cm => step cm
    | none =>
      match vol.Secret with
      | some secVol =>
        let optional := optBool secVol.Optional
        let step := fun (sec : V1Secret) =>
          match handleSecretVolume deploy pod vol secVol sec with
          | (calls, some e) => (acc ++ calls, some e)
          | (calls, none) => deployVolumesAux getCM getSec deploy pod rest (acc ++ calls)
        match getSec secVol.SecretName pod.Namespace with
        | .error e =>
          if e = FetchErr.notFound ∧ optional = true then
            step (emptyV1Secret pod.Namespace secVol.SecretName)
          else
            (acc, some (wrapError ("Couldn't get secret " ++ pod.Namespace ++ "/" ++ secVol.SecretName)
              (fetchErrMsg e)))
        | .ok sec => step sec
      | none => deployVolumesAux getCM getSec deploy pod rest acc

/-- `deployPodVolumes`: run the loop over the pod's volumes, returning the
`Deploy` calls made and the final error, if any. -/
def deployPodVolumes (getCM : String → String → Except FetchErr V1ConfigMap)
    (getSec : String → String → Except FetchErr V1Secret)
    (deploy : String → String → List TarEntry → Option String)
    (pod : Pod) : List DeployCall × Option String :=
  deployVolumesAux getCM getSec deploy pod pod.Volumes []

/-! ### Supporting lemmas for the volume-projection theorems -/

theorem mapLookup_isSome_iff_mem_keys (k : String) (m : List (String × α)) :
    (mapLookup k m).isSome = true ↔ k ∈ m.map Prod.fst := by
  induction m with
  | nil => simp [mapLookup]
  | cons p rest ih =>
    obtain ⟨k₀, v₀⟩ := p
    by_cases h : k = k₀ <;> simp [mapLookup, h, ih]

/-- A key-only item, as built for a volume source with an empty item list. -/
def keyOnlyItem (k : String) : KeyToPath := ⟨k, "", none⟩

theorem foldl_mapInsert_lookup (f : String → α) (ks : List String)
    (acc : List (String × α)) (k : String) :
    mapLookup k (ks.foldl (fun m k' => mapInsert m k' (f k')) acc) =
      if k ∈ ks then some (f k) else mapLookup k acc := by
  induction ks generalizing acc with
  | nil => simp
  | cons k0 ks ih =>
    simp only [List.foldl_cons, ih, mapLookup_mapInsert]
    by_cases h1 : k ∈ ks
    · simp [h1]
    · by_cases h2 : k = k0 <;> simp [h1, h2]

theorem foldl_mapInsert_nodup (f : String → α) (ks : List String)
    (acc : List (String × α)) (h : (acc.map Prod.fst).Nodup) :
    (((ks.foldl (fun m k' => mapInsert m k' (f k')) acc)).map Prod.fst).Nodup := by
  induction ks generalizing acc with
  | nil => simpa
  | cons k0 ks ih => exact ih _ (mapInsert_nodup_keys _ _ _ h)

/-- The package file that projection of key `k` inserts (given the effective
default mode `dm`): the `Data` value when present, else the `BinaryData`
value; the value is irrelevant when the key is absent from both. -/
def cmFileAt (cm : V1ConfigMap) (dm : Int) (k : String) : packageFile :=
  match mapLookup k cm.Data with
  | some s => ⟨strBytes s, dm⟩
  | none =>
    match mapLookup k cm.BinaryData with
    | some b => ⟨b, dm⟩
    | none => ⟨[], dm⟩

theorem processCMItems_keyOnly (cmVol : ConfigMapVolumeSource) (cm : V1ConfigMap)
    (opt : Bool) (dm : Int) (ks : List String) (acc : List (String × packageFile))
    (hp : ∀ k ∈ ks, (mapLookup k cm.Data).isSome = true ∨
      (mapLookup k cm.BinaryData).isSome = true) :
    processCMItems cmVol cm opt dm (ks.map keyOnlyItem) acc =
      .ok (ks.foldl (fun m k => mapInsert m k (cmFileAt cm dm k)) acc) := by
  induction ks generalizing acc with
  | nil => simp [processCMItems]
  | cons k ks ih =>
    have hk := hp k (by simp)
    have hkey : (keyOnlyItem k).Key = k := rfl
    have harch : archivePath (keyOnlyItem k) = k := rfl
    have hmode : itemMode dm (keyOnlyItem k) = dm := rfl
    simp only [List.map_cons, processCMItems, List.foldl_cons, hkey, harch, hmode]
    rcases hd : mapLookup k cm.Data with _ | s
    · rcases hb : mapLookup k cm.BinaryData with _ | b
      · rw [hd, hb] at hk; simp at hk
      · simp only [hd, hb]
        rw [show cmFileAt cm dm k = ⟨b, dm⟩ by simp [cmFileAt, hd, hb]]
        exact ih _ (fun k' hk' => hp k' (by simp [hk']))
    · simp only [hd]
      rw [show cmFileAt cm dm k = ⟨strBytes s, dm⟩ by simp [cmFileAt, hd]]
      exact ih _ (fun k' hk' => hp k' (by simp [hk']))

/-- The effective default mode of a configmap volume source:
`*DefaultMode` when non-nil, else `0644`. -/
def cmDefaultMode (cmVol : ConfigMapVolumeSource) : Int :=
  match cmVol.DefaultMode with
  | some m => m
  | none => defaultVolumeFileMode

/-- The package file the claim predicts for key `k` of a configmap volume with
an empty item list: the `Data` value (as bytes) when the key is in `Data`,
else the `BinaryData` value when the key is in `BinaryData`, else nothing;
always with the volume's effective default mode. -/
def cmKeyFile (cmVol : ConfigMapVolumeSource) (cm : V1ConfigMap) (k : String) :
    Option packageFile :=
  match mapLookup k cm.Data with
  | some s => some ⟨strBytes s, cmDefaultMode cmVol⟩
  | none => (mapLookup k cm.BinaryData).map (fun b => ⟨b, cmDefaultMode cmVol⟩)

/-- C1: for a configmap volume source with an empty `Items` list,
`getConfigMapFiles` succeeds and returns a map with one package file per key
of `Data ∪ BinaryData`: the file's path is the key, its contents are that
key's value (from `Data`, else `BinaryData`), and its mode is `*DefaultMode`
when non-nil and `0644` otherwise. -/
theorem getConfigMapFiles_emptyItems (cmVol : ConfigMapVolumeSource)
    (cm : V1ConfigMap) (h : cmVol.Items = []) :
    (getConfigMapFiles cmVol cm).isOk = true ∧
    ∀ m, getConfigMapFiles cmVol cm = .ok m →
      (m.map Prod.fst).Nodup ∧ ∀ k, mapLookup k m = cmKeyFile cmVol cm k := by
  have hitems : cmVolItems cmVol cm =
      (cm.Data.map Prod.fst ++ cm.BinaryData.map Prod.fst).map keyOnlyItem := by
    simp only [cmVolItems, h, if_pos, List.map_append, List.map_map]
    rfl
  have hg : getConfigMapFiles cmVol cm =
      processCMItems cmVol cm (optBool cmVol.Optional) (cmDefaultMode cmVol)
        (cmVolItems cmVol cm) [] := rfl
  have hp : ∀ k ∈ cm.Data.map Prod.fst ++ cm.BinaryData.map Prod.fst,
      (mapLookup k cm.Data).isSome = true ∨ (mapLookup k cm.BinaryData).isSome = true := by
    intro k hk
    rcases List.mem_append.mp hk with hk' | hk'
    · exact Or.inl ((mapLookup_isSome_iff_mem_keys k cm.Data).mpr hk')
    · exact Or.inr ((mapLookup_isSome_iff_mem_keys k cm.BinaryData).mpr hk')
  have heq := processCMItems_keyOnly cmVol cm (optBool cmVol.Optional)
    (cmDefaultMode cmVol) (cm.Data.map Prod.fst ++ cm.BinaryData.map Prod.fst) [] hp
  rw [hg, hitems, heq]
  refine ⟨rfl, ?_⟩
  intro m hm
  injection hm with hm
  subst hm
  constructor
  · exact foldl_mapInsert_nodup _ _ [] (by simp)
  · intro k
    rw [foldl_mapInsert_lookup]
    rcases hd : mapLookup k cm.Data with _ | s
    · rcases hb : mapLookup k cm.BinaryData with _ | b
      · have : k ∉ cm.Data.map Prod.fst ++ cm.BinaryData.map Prod.fst := by
          intro hk
          rcases hp k hk with h' | h' <;> simp_all
        simp [this, cmKeyFile, hd, hb, mapLookup]
      · have : k ∈ cm.Data.map Prod.fst ++ cm.BinaryData.map Prod.fst := by
          refine List.mem_append.mpr (Or.inr ?_)
          exact (mapLookup_isSome_iff_mem_keys k cm.BinaryData).mp (by simp [hb])
        simp [this, cmKeyFile, cmFileAt, hd, hb]
    · have : k ∈ cm.Data.map Prod.fst ++ cm.BinaryData.map Prod.fst := by
        refine List.mem_append.mpr (Or.inl ?_)
        exact (mapLookup_isSome_iff_mem_keys k cm.Data).mp (by simp [hd])
      simp [this, cmKeyFile, cmFileAt, hd]

/-- Scenario inputs for the C1 witness: configmap with
`Data={"a":"A","b":"B"}`, `BinaryData={"c":[1,2]}` and a volume source with
`Items=[]`, `DefaultMode=nil`. -/
def cmVolW : ConfigMapVolumeSource := ⟨"cm", [], none, none⟩

def cmW : V1ConfigMap := ⟨"cm", "default", [("a", "A"), ("b", "B")], [("c", [1, 2])]⟩

theorem getConfigMapFiles_emptyItems_witness :
    (getConfigMapFiles cmVolW cmW).isOk = true ∧
    mapLookup "a" [("a", packageFile.mk [65] 420), ("b", packageFile.mk [66] 420),
      ("c", packageFile.mk [1, 2] 420)] = cmKeyFile cmVolW cmW "a" :=
  ⟨(getConfigMapFiles_emptyItems cmVolW cmW rfl).1,
    ((getConfigMapFiles_emptyItems cmVolW cmW rfl).2 _ (by rfl)).2 "a"⟩

theorem processCMItems_optional_ok (cmVol : ConfigMapVolumeSource) (cm : V1ConfigMap)
    (dm : Int) (items : List KeyToPath) (acc : List (String × packageFile)) :
    (processCMItems cmVol cm true dm items acc).isOk = true := by
  induction items generalizing acc with
  | nil => rfl
  | cons item rest ih =>
    simp only [processCMItems]
    rcases mapLookup item.Key cm.Data with _ | s
    · rcases mapLookup item.Key cm.BinaryData with _ | b
      · simpa using ih acc
      · exact ih _
    · exact ih _

theorem processCMItems_skip_missing (cmVol : ConfigMapVolumeSource) (cm : V1ConfigMap)
    (dm : Int) (item : KeyToPath) (l1 l2 : List KeyToPath)
    (acc : List (String × packageFile))
    (hd : mapLookup item.Key cm.Data = none)
    (hb : mapLookup item.Key cm.BinaryData = none) :
    processCMItems cmVol cm true dm (l1 ++ item :: l2) acc =
      processCMItems cmVol cm true dm (l1 ++ l2) acc := by
  induction l1 generalizing acc with
  | nil => simp [processCMItems, hd, hb]
  | cons x l1 ih =>
    simp only [List.cons_append, processCMItems]
    rcases mapLookup x.Key cm.Data with _ | s
    · rcases mapLookup x.Key cm.BinaryData with _ | b
      · simpa using ih acc
      · exact ih _
    · exact ih _

theorem processCMItems_missing_error (cmVol : ConfigMapVolumeSource) (cm : V1ConfigMap)
    (dm : Int) (item : KeyToPath) (items : List KeyToPath)
    (acc : List (String × packageFile)) (hmem : item ∈ items)
    (hd : mapLookup item.Key cm.Data = none)
    (hb : mapLookup item.Key cm.BinaryData = none) :
    (processCMItems cmVol cm false dm items acc).isOk = false := by
  induction items generalizing acc with
  | nil => simp at hmem
  | cons x rest ih =>
    simp only [processCMItems]
    rcases hxd : mapLookup x.Key cm.Data with _ | s
    · rcases hxb : mapLookup x.Key cm.BinaryData with _ | b
      · rfl
      · rcases List.mem_cons.mp hmem with h | h
        · subst h; rw [hd] at hxd; rw [hb] at hxb; cases hxb
        · exact ih _ h
    · rcases List.mem_cons.mp hmem with h | h
      · subst h; rw [hd] at hxd; cases hxd
      · exact ih _ h

theorem processSecItems_optional_ok (secVol : SecretVolumeSource) (sec : V1Secret)
    (dm : Int) (items : List KeyToPath) (acc : List (String × packageFile)) :
    (processSecItems secVol sec true dm items acc).isOk = true := by
  induction items generalizing acc with
  | nil => rfl
  | cons item rest ih =>
    simp only [processSecItems]
    rcases mapLookup item.Key sec.Data with _ | b
    · simpa using ih acc
    · exact ih _

theorem processSecItems_skip_missing (secVol : SecretVolumeSource) (sec : V1Secret)
    (dm : Int) (item : KeyToPath) (l1 l2 : List KeyToPath)
    (acc : List (String × packageFile))
    (hd : mapLookup item.Key sec.Data = none) :
    processSecItems secVol sec true dm (l1 ++ item :: l2) acc =
      processSecItems secVol sec true dm (l1 ++ l2) acc := by
  induction l1 generalizing acc with
  | nil => simp [processSecItems, hd]
  | cons x l1 ih =>
    simp only [List.cons_append, processSecItems]
    rcases mapLookup x.Key sec.Data with _ | b
    · simpa using ih acc
    · exact ih _

theorem processSecItems_missing_error (secVol : SecretVolumeSource) (sec : V1Secret)
    (dm : Int) (item : KeyToPath) (items : List KeyToPath)
    (acc : List (String × packageFile)) (hmem : item ∈ items)
    (hd : mapLookup item.Key sec.Data = none) :
    (processSecItems secVol sec false dm items acc).isOk = false := by
  induction items generalizing acc with
  | nil => simp at hmem
  | cons x rest ih =>
    simp only [processSecItems]
    rcases hxd : mapLookup x.Key sec.Data with _ | b
    · rfl
    · rcases List.mem_cons.mp hmem with h | h
      · subst h; rw [hd] at hxd; cases hxd
      · exact ih _ h

/-- The effective default mode of a secret volume source. -/
def secDefaultMode (secVol : SecretVolumeSource) : Int :=
  match secVol.DefaultMode with
  | some m => m
  | none => defaultVolumeFileMode

/-- C2: for a configmap or secret volume item whose key is in neither `Data`
nor `BinaryData` of the source object: when the source is optional
(`Optional` non-nil and true), the item is skipped — the result is exactly
the processing of the remaining items — and no error occurs; when the source
is not optional (`Optional` nil or false), the projection fails and returns
no file map. -/
theorem missingKey_handling :
    (∀ (cmVol : ConfigMapVolumeSource) (cm : V1ConfigMap) (item : KeyToPath)
      (l1 l2 : List KeyToPath),
      cmVol.Optional = some true →
      cmVol.Items = l1 ++ item :: l2 →
      mapLookup item.Key cm.Data = none →
      mapLookup item.Key cm.BinaryData = none →
      getConfigMapFiles cmVol cm =
        processCMItems cmVol cm true (cmDefaultMode cmVol) (l1 ++ l2) [] ∧
      (getConfigMapFiles cmVol cm).isOk = true) ∧
    (∀ (cmVol : ConfigMapVolumeSource) (cm : V1ConfigMap) (item : KeyToPath),
      (cmVol.Optional = none ∨ cmVol.Optional = some false) →
      item ∈ cmVol.Items →
      mapLookup item.Key cm.Data = none →
      mapLookup item.Key cm.BinaryData = none →
      (getConfigMapFiles cmVol cm).isOk = false) ∧
    (∀ (secVol : SecretVolumeSource) (sec : V1Secret) (item : KeyToPath)
      (l1 l2 : List KeyToPath),
      secVol.Optional = some true →
      secVol.Items = l1 ++ item :: l2 →
      mapLookup item.Key sec.Data = none →
      getSecretFiles secVol sec =
        processSecItems secVol sec true (secDefaultMode secVol) (l1 ++ l2) [] ∧
      (getSecretFiles secVol sec).isOk = true) ∧
    (∀ (secVol : SecretVolumeSource) (sec : V1Secret) (item : KeyToPath),
      (secVol.Optional = none ∨ secVol.Optional = some false) →
      item ∈ secVol.Items →
      mapLookup item.Key sec.Data = none →
      (getSecretFiles secVol sec).isOk = false) := by
  refine ⟨?_, ?_, ?_, ?_⟩
  · intro cmVol cm item l1 l2 hopt hitems hd hb
    have hne : cmVol.Items ≠ [] := by rw [hitems]; simp
    have hg : getConfigMapFiles cmVol cm =
        processCMItems cmVol cm (optBool cmVol.Optional) (cmDefaultMode cmVol)
          (cmVolItems cmVol cm) [] := rfl
    rw [hg, show cmVolItems cmVol cm = cmVol.Items from by simp [cmVolItems, hne],
      hitems, hopt, show optBool (some true) = true from rfl,
      processCMItems_skip_missing cmVol cm _ item l1 l2 [] hd hb]
    exact ⟨rfl, processCMItems_optional_ok cmVol cm _ _ _⟩
  · intro cmVol cm item hopt hmem hd hb
    have hne : cmVol.Items ≠ [] := by
      intro hx; rw [hx] at hmem; simp at hmem
    have hg : getConfigMapFiles cmVol cm =
        processCMItems cmVol cm (optBool cmVol.Optional) (cmDefaultMode cmVol)
          (cmVolItems cmVol cm) [] := rfl
    have hob : optBool cmVol.Optional = false := by
      rcases hopt with h | h <;> simp [h, optBool]
    rw [hg, show cmVolItems cmVol cm = cmVol.Items from by simp [cmVolItems, hne], hob]
    exact processCMItems_missing_error cmVol cm _ item _ [] hmem hd hb
  · intro secVol sec item l1 l2 hopt hitems hd
    have hne : secVol.Items ≠ [] := by rw [hitems]; simp
    have hg : getSecretFiles secVol sec =
        processSecItems secVol sec (optBool secVol.Optional) (secDefaultMode secVol)
          (secVolItems secVol sec) [] := rfl
    rw [hg, show secVolItems secVol sec = secVol.Items from by simp [secVolItems, hne],
      hitems, hopt, show optBool (some true) = true from rfl,
      processSecItems_skip_missing secVol sec _ item l1 l2 [] hd]
    exact ⟨rfl, processSecItems_optional_ok secVol sec _ _ _⟩
  · intro secVol sec item hopt hmem hd
    have hne : secVol.Items ≠ [] := by
      intro hx; rw [hx] at hmem; simp at hmem
    have hg : getSecretFiles secVol sec =
        processSecItems secVol sec (optBool secVol.Optional) (secDefaultMode secVol)
          (secVolItems secVol sec) [] := rfl
    have hob : optBool secVol.Optional = false := by
      rcases hopt with h | h <;> simp [h, optBool]
    rw [hg, show secVolItems secVol sec = secVol.Items from by simp [secVolItems, hne], hob]
    exact processSecItems_missing_error secVol sec _ item _ [] hmem hd

/-- C2 witness inputs: a secret volume with one present and one missing item,
optional and non-optional variants; likewise a configmap volume. -/
def secW : V1Secret := ⟨"sec", "default", [("a", [7])]⟩

def secVolOptW : SecretVolumeSource :=
  ⟨"sec", [⟨"a", "x/y", none⟩, ⟨"missing", "", none⟩], none, some true⟩

def secVolReqW : SecretVolumeSource :=
  ⟨"sec", [⟨"a", "x/y", none⟩, ⟨"missing", "", none⟩], none, none⟩

def cmVolOptW : ConfigMapVolumeSource :=
  ⟨"cm", [⟨"a", "x/y", none⟩, ⟨"missing", "", none⟩], none, some true⟩

def cmVolReqW : ConfigMapVolumeSource :=
  ⟨"cm", [⟨"a", "x/y", none⟩, ⟨"missing", "", none⟩], none, some false⟩

theorem missingKey_handling_witness :
    (getConfigMapFiles cmVolOptW cmW =
      processCMItems cmVolOptW cmW true 420 [⟨"a", "x/y", none⟩] [] ∧
      (getConfigMapFiles cmVolOptW cmW).isOk = true) ∧
    (getConfigMapFiles cmVolReqW cmW).isOk = false ∧
    (getSecretFiles secVolOptW secW =
      processSecItems secVolOptW secW true 420 [⟨"a", "x/y", none⟩] [] ∧
      (getSecretFiles secVolOptW secW).isOk = true) ∧
    (getSecretFiles secVolReqW secW).isOk = false :=
  ⟨missingKey_handling.1 cmVolOptW cmW ⟨"missing", "", none⟩ [⟨"a", "x/y", none⟩] []
      rfl rfl rfl rfl,
    missingKey_handling.2.1 cmVolReqW cmW ⟨"missing", "", none⟩ (Or.inr rfl)
      (by simp [cmVolReqW]) rfl rfl,
    missingKey_handling.2.2.1 secVolOptW secW ⟨"missing", "", none⟩ [⟨"a", "x/y", none⟩] []
      rfl rfl rfl,
    missingKey_handling.2.2.2 secVolReqW secW ⟨"missing", "", none⟩ (Or.inl rfl)
      (by simp [secVolReqW]) rfl⟩

/-- C10: when an item's key is present in the configmap's `Data`, the string
value from `Data` supplies the file contents (whatever `BinaryData` holds);
`BinaryData` supplies the contents only when the key is absent from `Data`. -/
theorem configMapData_preferred :
    (∀ (cmVol : ConfigMapVolumeSource) (cm : V1ConfigMap) (opt : Bool) (dm : Int)
      (item : KeyToPath) (rest : List KeyToPath) (acc : List (String × packageFile))
      (s : String),
      mapLookup item.Key cm.Data = some s →
      processCMItems cmVol cm opt dm (item :: rest) acc =
        processCMItems cmVol cm opt dm rest
          (mapInsert acc (archivePath item) ⟨strBytes s, itemMode dm item⟩)) ∧
    (∀ (cmVol : ConfigMapVolumeSource) (cm : V1ConfigMap) (opt : Bool) (dm : Int)
      (item : KeyToPath) (rest : List KeyToPath) (acc : List (String × packageFile))
      (b : List Nat),
      mapLookup item.Key cm.Data = none →
      mapLookup item.Key cm.BinaryData = some b →
      processCMItems cmVol cm opt dm (item :: rest) acc =
        processCMItems cmVol cm opt dm rest
          (mapInsert acc (archivePath item) ⟨b, itemMode dm item⟩)) := by
  constructor
  · intro cmVol cm opt dm item rest acc s hd
    simp [processCMItems, hd]
  · intro cmVol cm opt dm item rest acc b hd hb
    simp [processCMItems, hd, hb]

/-- C10 witness inputs: key `"k"` present in both maps with different values. -/
def cmBothW : V1ConfigMap := ⟨"cm", "default", [("k", "A")], [("k", [66])]⟩

theorem configMapData_preferred_witness :
    processCMItems cmVolW cmBothW false 420 [⟨"k", "", none⟩] [] =
      Except.ok [("k", packageFile.mk [65] 420)] :=
  (configMapData_preferred.1 cmVolW cmBothW false 420 ⟨"k", "", none⟩ [] [] "A" rfl).trans
    (by rfl)

/-! ### The package builder (C3) -/

/-- C3 counterexample: for the one-file map `{"a" ↦ (bytes, 0644)}` the tar
entry is named `ROOTFS/a` — `filepath.Join(".", "ROOTFS", path)` cleans the
path and strips the leading `./` — so it is not `./ROOTFS/a` as the claim
states. -/
theorem makeDeployPackage_dotPrefix_cex :
    (makeDeployPackage [("a", packageFile.mk [65] 420)]).map TarEntry.name = ["ROOTFS/a"] ∧
    ("ROOTFS/a" : String) ≠ "./" ++ "ROOTFS/" ++ "a" := by
  constructor
  · rfl
  · decide

/-- A clean relative path: every slash-separated component is non-empty and
is neither `.` nor `..` (in particular the path is non-empty and neither
starts nor ends with a slash). -/
def cleanRelPath (p : String) : Bool :=
  (splitChar '/' p.toList).all (fun c => !(c = [] || c = ['.'] || c = ['.', '.']))

theorem cleanComps_good (rooted : Bool) (comps stack : List (List Char))
    (h : ∀ c ∈ comps, ¬(c = [] ∨ c = ['.'] ∨ c = ['.', '.'])) :
    cleanComps rooted comps stack = comps.reverse ++ stack := by
  induction comps generalizing stack with
  | nil => simp [cleanComps]
  | cons c rest ih =>
    have hc := h c (by simp)
    push_neg at hc
    simp only [cleanComps]
    rw [if_neg (by tauto), if_neg (by tauto), ih _ (fun c' hc' => h c' (by simp [hc']))]
    simp

theorem joinSep_cons (sep : Char) (c : List Char) (l : List (List Char)) (h : l ≠ []) :
    joinSep sep (c :: l) = c ++ sep :: joinSep sep l := by
  cases l with
  | nil => exact absurd rfl h
  | cons c' rest => rfl

theorem goFilepathJoin_cleanRel (p : String) (h : cleanRelPath p = true) :
    goFilepathJoin [".", "ROOTFS", p] = "ROOTFS/" ++ p := by
  have hjoin : goFilepathJoin [".", "ROOTFS", p] =
      goPathClean ("." ++ "/" ++ ("ROOTFS" ++ "/" ++ p)) := rfl
  have hlist : ("." ++ "/" ++ ("ROOTFS" ++ "/" ++ p)).toList =
      '.' :: '/' :: ("ROOTFS".toList ++ '/' :: p.toList) := by
    show ("." ++ "/" ++ ("ROOTFS" ++ "/" ++ p)).data = _
    simp [String.data_append]
  have hne : ("." ++ "/" ++ ("ROOTFS" ++ "/" ++ p)) ≠ "" := by
    intro hx
    have : ("." ++ "/" ++ ("ROOTFS" ++ "/" ++ p)).toList = [] := by rw [hx]; rfl
    rw [hlist] at this
    cases this
  have hsplit : splitChar '/' ('.' :: '/' :: ("ROOTFS".toList ++ '/' :: p.toList)) =
      ['.'] :: "ROOTFS".toList :: splitChar '/' p.toList := by
    have h1 : ('.' : Char) :: '/' :: ("ROOTFS".toList ++ '/' :: p.toList) =
        ['.'] ++ '/' :: ("ROOTFS".toList ++ '/' :: p.toList) := rfl
    rw [h1, splitChar_append '/' ['.'] _ (by decide),
      splitChar_append '/' ("ROOTFS".toList) _ (by decide)]
  have hgood : ∀ c ∈ splitChar '/' p.toList, ¬(c = [] ∨ c = ['.'] ∨ c = ['.', '.']) := by
    intro c hc
    have := List.all_eq_true.mp h c hc
    intro hx
    rcases hx with hx | hx | hx <;> simp [hx] at this
  have hclean : cleanComps false (['.'] :: "ROOTFS".toList :: splitChar '/' p.toList) [] =
      (splitChar '/' p.toList).reverse ++ ["ROOTFS".toList] := by
    have h12 : cleanComps false (['.'] :: "ROOTFS".toList :: splitChar '/' p.toList) [] =
        cleanComps false (splitChar '/' p.toList) ["ROOTFS".toList] := by
      simp [cleanComps]
    rw [h12, cleanComps_good false _ _ hgood]
  have hdata : "ROOTFS".toList ++ '/' :: p.toList = "ROOTFS/".data ++ p.data := by
    show "ROOTFS".data ++ '/' :: p.data = "ROOTFS/".data ++ p.data
    rw [show "ROOTFS/".data = "ROOTFS".data ++ ['/'] from by decide]
    simp
  have hout : String.mk ("ROOTFS".toList ++ '/' :: p.toList) = "ROOTFS/" ++ p := by
    rw [hdata]; rfl
  have houtne : ("ROOTFS/" ++ p) ≠ "" := by
    intro hx
    have hx2 : ("ROOTFS/" ++ p).toList = [] := by rw [hx]; rfl
    rw [show ("ROOTFS/" ++ p).toList = "ROOTFS/".data ++ p.data from rfl] at hx2
    cases hx2
  rw [hjoin, goPathClean, if_neg hne]
  simp only [hlist, hsplit, List.head?_cons]
  rw [if_neg (by decide), show (decide ((some '.' : Option Char) = some '/')) = false from by decide]
  rw [hclean]
  have hrev : ((splitChar '/' p.toList).reverse ++ ["ROOTFS".toList]).reverse =
      "ROOTFS".toList :: splitChar '/' p.toList := by simp
  rw [hrev, joinSep_cons '/' _ _ (splitChar_ne_nil '/' p.toList), joinSep_splitChar]
  rw [hout]
  simp [houtne]

/-- C3 (amended): `makeDeployPackage` produces one tar entry per map entry;
each entry's uid and gid are 0, its typeflag is the regular-file flag, its
mode is the given mode, its size is the exact byte length, and its name is
`filepath.Join(".", "ROOTFS", path)` — which, for a clean relative path, is
exactly `ROOTFS/<path>` (the claimed `./` prefix is cleaned away). -/
theorem makeDeployPackage_entries (contents : List (String × packageFile)) :
    (makeDeployPackage contents).length = contents.length ∧
    (∀ p f, (p, f) ∈ contents →
      TarEntry.mk (goFilepathJoin [".", "ROOTFS", p]) f.mode f.data.length
        tarTypeReg 0 0 f.data ∈ makeDeployPackage contents) ∧
    (∀ p, cleanRelPath p = true → goFilepathJoin [".", "ROOTFS", p] = "ROOTFS/" ++ p) := by
  refine ⟨by simp [makeDeployPackage], ?_, fun p hp => goFilepathJoin_cleanRel p hp⟩
  intro p f hmem
  exact List.mem_map.mpr ⟨(p, f), hmem, rfl⟩

theorem makeDeployPackage_entries_witness :
    (makeDeployPackage [("etc/hosts", packageFile.mk [104, 105] 384)]).length = 1 ∧
    TarEntry.mk (goFilepathJoin [".", "ROOTFS", "etc/hosts"]) 384 2 tarTypeReg 0 0 [104, 105] ∈
      makeDeployPackage [("etc/hosts", packageFile.mk [104, 105] 384)] ∧
    goFilepathJoin [".", "ROOTFS", "etc/hosts"] = "ROOTFS/" ++ "etc/hosts" :=
  ⟨(makeDeployPackage_entries [("etc/hosts", packageFile.mk [104, 105] 384)]).1,
    (makeDeployPackage_entries [("etc/hosts", packageFile.mk [104, 105] 384)]).2.1
      "etc/hosts" (packageFile.mk [104, 105] 384) (by simp),
    (makeDeployPackage_entries [("etc/hosts", packageFile.mk [104, 105] 384)]).2.2
      "etc/hosts" (by decide)⟩

/-! ### resolv.conf generation (C5, C9) -/

/-- The claim's `nameserver` block: one `nameserver <ip>\n` line per server,
in order. -/
def nameserverLines : List String → String
  | [] => ""
  | s :: rest => "nameserver " ++ s ++ "\n" ++ nameserverLines rest

/-- The resolv.conf contents the claim predicts: the nameserver lines, then a
`search` line iff there are searches, then an `options` line iff there are
options. -/
def resolvconfSpec (dnsconf : DNSConfig) : String :=
  nameserverLines dnsconf.Servers ++
    (if dnsconf.Searches = [] then ""
      else "search " ++ goStringsJoin dnsconf.Searches " " ++ "\n") ++
    (if dnsconf.Options = [] then ""
      else "options " ++ goStringsJoin dnsconf.Options " " ++ "\n")

theorem writeServers_ok (servers : List String) (podName buf : String) :
    writeServers podName buf servers = .ok (buf ++ nameserverLines servers) := by
  induction servers generalizing buf with
  | nil => simp [writeServers, nameserverLines, String.append_empty]
  | cons srv rest ih =>
    simp only [writeServers, bufferWriteString, nameserverLines, ih, String.append_assoc]

/-- C5: `createResolvconf` always succeeds and returns exactly the bytes of
the predicted string (nameserver lines in order, then `search` iff non-empty,
then `options` iff non-empty); in particular the literal scenario produces the
literal output; and the resolv.conf package deploys that content as the single
file `/etc/resolv.conf` (rooted in the archive at `ROOTFS/etc/resolv.conf`)
with mode `0644` and exact size. -/
theorem createResolvconf_spec :
    (∀ (podName : String) (dnsconf : DNSConfig),
      createResolvconf podName dnsconf = .ok (strBytes (resolvconfSpec dnsconf))) ∧
    createResolvconf "p" ⟨["1.1.1.1", "8.8.8.8"], ["svc.cluster.local"], ["ndots:5"]⟩ =
      .ok (strBytes
        "nameserver 1.1.1.1\nnameserver 8.8.8.8\nsearch svc.cluster.local\noptions ndots:5\n") ∧
    (∀ data : List Nat, resolvconfPackage data =
      [TarEntry.mk "ROOTFS/etc/resolv.conf" 0o644 data.length tarTypeReg 0 0 data]) := by
  refine ⟨?_, by rfl, ?_⟩
  · intro podName dnsconf
    obtain ⟨servers, searches, options⟩ := dnsconf
    simp only [createResolvconf, writeServers_ok, resolvconfSpec]
    rcases searches with _ | ⟨s0, ss⟩ <;> rcases options with _ | ⟨o0, os⟩ <;>
      simp [bufferWriteString, String.empty_append, String.append_empty, String.append_assoc]
  · intro data
    simp only [resolvconfPackage, makeDeployPackage, List.map_cons, List.map_nil]
    rw [show goFilepathJoin [".", "ROOTFS", "/etc/resolv.conf"] = "ROOTFS/etc/resolv.conf"
      from by decide]

/-- C9: a DNS config with no nameservers, searches, or options yields a
successful, empty resolv.conf — never an error. -/
theorem createResolvconf_empty (podName : String) :
    createResolvconf podName ⟨[], [], []⟩ = .ok [] := rfl

/-! ### BootImageTags round trip (C6) -/

/-- C6 counterexample: all five fields of `⟨"a-b", "p", "v", "d", "t"⟩` are
set, yet parsing back its rendered string shifts every field (the `-` inside
`Company` acts as a separator), so `Set` does not recover the tuple. -/
theorem bootImageTags_roundTrip_cex :
    BootImageTags.Set zeroBIT (BootImageTags.render ⟨"a-b", "p", "v", "d", "t"⟩) =
      ⟨"a", "b", "p", "v", "d"⟩ ∧
    BootImageTags.Set zeroBIT (BootImageTags.render ⟨"a-b", "p", "v", "d", "t"⟩) ≠
      ⟨"a-b", "p", "v", "d", "t"⟩ ∧
    ("a-b" : String) ≠ "" ∧ ("p" : String) ≠ "" ∧ ("v" : String) ≠ "" ∧
    ("d" : String) ≠ "" ∧ ("t" : String) ≠ "" := by
  refine ⟨by decide, by decide, by decide, by decide, by decide, by decide, by decide⟩

theorem strMk_toList (s : String) : String.mk s.toList = s := rfl

/-- C6 (amended): when all five fields are set and none of them contains a
`-`, `Set` applied (to any receiver) to the rendered string recovers exactly
the original tuple. -/
theorem bootImageTags_roundTrip (bit0 bit : BootImageTags)
    (hc : bit.Company ≠ "") (hp : bit.Product ≠ "") (hv : bit.Version ≠ "")
    (hd : bit.Date ≠ "") (ht : bit.Time ≠ "")
    (nc : '-' ∉ bit.Company.toList) (np : '-' ∉ bit.Product.toList)
    (nv : '-' ∉ bit.Version.toList) (nd : '-' ∉ bit.Date.toList)
    (nt : '-' ∉ bit.Time.toList) :
    BootImageTags.Set bit0 (BootImageTags.render bit) = bit := by
  obtain ⟨C, P, V, D, T⟩ := bit
  simp only at nc np nv nd nt
  have hlist : (BootImageTags.render ⟨C, P, V, D, T⟩).toList =
      C.toList ++ '-' :: (P.toList ++ '-' :: (V.toList ++ '-' :: (D.toList ++ '-' :: T.toList))) := by
    show (C ++ "-" ++ P ++ "-" ++ V ++ "-" ++ D ++ "-" ++ T).data = _
    simp [String.data_append]
  rw [BootImageTags.Set, hlist,
    splitChar_append '-' C.toList _ nc,
    splitChar_append '-' P.toList _ np,
    splitChar_append '-' V.toList _ nv,
    splitChar_append '-' D.toList _ nd,
    splitChar_no_sep '-' T.toList nt]
  simp only [List.map_cons, List.map_nil, strMk_toList]

theorem bootImageTags_roundTrip_witness :
    BootImageTags.Set ⟨"x", "y", "z", "w", "q"⟩
        (BootImageTags.render ⟨"elotl", "itzo", "1", "20240101", "010000"⟩) =
      ⟨"elotl", "itzo", "1", "20240101", "010000"⟩ :=
  bootImageTags_roundTrip ⟨"x", "y", "z", "w", "q"⟩ ⟨"elotl", "itzo", "1", "20240101", "010000"⟩
    (by decide) (by decide) (by decide) (by decide) (by decide)
    (by decide) (by decide) (by decide) (by decide) (by decide)

/-! ### Cloud-init rendering (C7) -/

/-- C7: provided the YAML marshaller succeeds on the merged config (the Go
marshaller cannot fail on this struct), `File.Contents` returns exactly the
literal header `#cloud-config\n` followed by the marshalled merged config,
and it returns an error — and no bytes — exactly when that total output
exceeds 16000 bytes. -/
theorem cloudInitContents_spec (marshal : cloudinitfile.CloudConfig → Except String (List Nat))
    (f : cloudinitfile.File) (content : List Nat)
    (h : marshal f.mergedConfig = .ok content) :
    (∀ out, cloudinitfile.File.Contents marshal f = .ok out →
      out = strBytes "#cloud-config\n" ++ content) ∧
    ((cloudinitfile.File.Contents marshal f).isOk = false ↔
      (strBytes "#cloud-config\n" ++ content).length > 16000) := by
  have hc : cloudinitfile.File.Contents marshal f =
      (if (cloudinitfile.cloudInitHeader ++ content).length > cloudinitfile.maxCloudInitSize then
        .error "Cloud init data length is over 16K"
      else .ok (cloudinitfile.cloudInitHeader ++ content)) := by
    rw [cloudinitfile.File.Contents, show marshal f.mergedConfig = .ok content from h]
  constructor
  · intro out hout
    rw [hc] at hout
    by_cases hlen : (cloudinitfile.cloudInitHeader ++ content).length >
        cloudinitfile.maxCloudInitSize
    · rw [if_pos hlen] at hout; cases hout
    · rw [if_neg hlen] at hout
      injection hout with hout
      exact hout.symm
  · rw [hc]
    by_cases hlen : (cloudinitfile.cloudInitHeader ++ content).length >
        cloudinitfile.maxCloudInitSize
    · rw [if_pos hlen]
      exact ⟨fun _ => hlen, fun _ => rfl⟩
    · rw [if_neg hlen]
      constructor
      · intro hx
        exact absurd (show (true : Bool) = false from hx) (by decide)
      · intro hx
        exact absurd hx hlen

def marshalW : cloudinitfile.CloudConfig → Except String (List Nat) := fun _ => .ok [1, 2, 3]

def cifW : cloudinitfile.File := ⟨⟨[]⟩, []⟩

theorem cloudInitContents_spec_witness :
    ((cloudinitfile.File.Contents marshalW cifW).isOk = false ↔
      (strBytes "#cloud-config\n" ++ [1, 2, 3]).length > 16000) ∧
    cloudinitfile.File.Contents marshalW cifW = .ok (strBytes "#cloud-config\n" ++ [1, 2, 3]) :=
  ⟨(cloudInitContents_spec marshalW cifW [1, 2, 3] rfl).2, by rfl⟩

/-! ### Volume fetch error handling in deployPodVolumes (C8) -/

/-- C8: for a configmap or secret volume, when the resource-manager fetch
fails and it is not the not-found-of-an-optional-source case, the deployment
aborts with a wrapped fetch error and makes no further `Deploy` calls (the
call trace stays at `acc`); when the fetch fails with not-found on an
optional source, processing continues exactly as if the fetch had returned
the empty object with the same name and namespace and no data. -/
theorem deployVolumes_fetchErrors (getCM : String → String → Except FetchErr V1ConfigMap)
    (getSec : String → String → Except FetchErr V1Secret)
    (deploy : String → String → List TarEntry → Option String) (pod : Pod) :
    (∀ (vol : Volume) (rest : List Volume) (acc : List DeployCall)
      (cmVol : ConfigMapVolumeSource) (e : FetchErr),
      vol.ConfigMap = some cmVol →
      getCM cmVol.Name pod.Namespace = .error e →
      ¬(e = FetchErr.notFound ∧ optBool cmVol.Optional = true) →
      deployVolumesAux getCM getSec deploy pod (vol :: rest) acc =
        (acc, some (wrapError ("Couldn't get configMap " ++ pod.Namespace ++ "/" ++ cmVol.Name)
          (fetchErrMsg e)))) ∧
    (∀ (vol : Volume) (rest : List Volume) (acc : List DeployCall)
      (cmVol : ConfigMapVolumeSource),
      vol.ConfigMap = some cmVol →
      getCM cmVol.Name pod.Namespace = .error FetchErr.notFound →
      optBool cmVol.Optional = true →
      deployVolumesAux getCM getSec deploy pod (vol :: rest) acc =
        (match handleConfigMapVolume deploy pod vol cmVol
            ⟨cmVol.Name, pod.Namespace, [], []⟩ with
          | (calls, some e) => (acc ++ calls, some e)
          | (calls, none) => deployVolumesAux getCM getSec deploy pod rest (acc ++ calls))) ∧
    (∀ (vol : Volume) (rest : List Volume) (acc : List DeployCall)
      (secVol : SecretVolumeSource) (e : FetchErr),
      vol.ConfigMap = none →
      vol.Secret = some secVol →
      getSec secVol.SecretName pod.Namespace = .error e →
      ¬(e = FetchErr.notFound ∧ optBool secVol.Optional = true) →
      deployVolumesAux getCM getSec deploy pod (vol :: rest) acc =
        (acc, some (wrapError ("Couldn't get secret " ++ pod.Namespace ++ "/" ++ secVol.SecretName)
          (fetchErrMsg e)))) ∧
    (∀ (vol : Volume) (rest : List Volume) (acc : List DeployCall)
      (secVol : SecretVolumeSource),
      vol.ConfigMap = none →
      vol.Secret = some secVol →
      getSec secVol.SecretName pod.Namespace = .error FetchErr.notFound →
      optBool secVol.Optional = true →
      deployVolumesAux getCM getSec deploy pod (vol :: rest) acc =
        (match handleSecretVolume deploy pod vol secVol
            ⟨secVol.SecretName, pod.Namespace, []⟩ with
          | (calls, some e) => (acc ++ calls, some e)
          | (calls, none) => deployVolumesAux getCM getSec deploy pod rest (acc ++ calls))) := by
  refine ⟨?_, ?_, ?_, ?_⟩
  · intro vol rest acc cmVol e hcm hget hcond
    simp only [deployVolumesAux, hcm, hget, if_neg hcond]
  · intro vol rest acc cmVol hcm hget hopt
    simp only [deployVolumesAux, hcm, hget, hopt]
    rw [if_pos (⟨trivial, trivial⟩ : True ∧ True)]
    rfl
  · intro vol rest acc secVol e hcm hsec hget hcond
    simp only [deployVolumesAux, hcm, hsec, hget, if_neg hcond]
  · intro vol rest acc secVol hcm hsec hget hopt
    simp only [deployVolumesAux, hcm, hsec, hget, hopt]
    rw [if_pos (⟨trivial, trivial⟩ : True ∧ True)]
    rfl

def getCMerrW : String → String → Except FetchErr V1ConfigMap := fun _ _ => .error (.other "boom")

def getCMnfW : String → String → Except FetchErr V1ConfigMap := fun _ _ => .error .notFound

def getSecNfW : String → String → Except FetchErr V1Secret := fun _ _ => .error .notFound

def deployOkW : String → String → List TarEntry → Option String := fun _ _ _ => none

def podVW : Pod := ⟨"pod", "default", []⟩

def volCMOptVW : Volume := ⟨"v1", some ⟨"cm", [], none, some true⟩, none⟩

def volCMReqVW : Volume := ⟨"v1", some ⟨"cm", [], none, none⟩, none⟩

def volSecOptVW : Volume := ⟨"v2", none, some ⟨"sec", [], none, some true⟩⟩

def volSecReqVW : Volume := ⟨"v2", none, some ⟨"sec", [], none, none⟩⟩

theorem deployVolumes_fetchErrors_witness :
    (deployVolumesAux getCMerrW getSecNfW deployOkW podVW [volCMReqVW] [] =
      ([], some (wrapError ("Couldn't get configMap " ++ "default" ++ "/" ++ "cm")
        (fetchErrMsg (.other "boom"))))) ∧
    (deployVolumesAux getCMnfW getSecNfW deployOkW podVW [volCMOptVW] [] =
      (match handleConfigMapVolume deployOkW podVW volCMOptVW ⟨"cm", [], none, some true⟩
          ⟨"cm", "default", [], []⟩ with
        | (calls, some e) => ([] ++ calls, some e)
        | (calls, none) => deployVolumesAux getCMnfW getSecNfW deployOkW podVW [] ([] ++ calls))) ∧
    (deployVolumesAux getCMnfW getSecNfW deployOkW podVW [volSecReqVW] [] =
      ([], some (wrapError ("Couldn't get secret " ++ "default" ++ "/" ++ "sec")
        (fetchErrMsg FetchErr.notFound)))) ∧
    (deployVolumesAux getCMnfW getSecNfW deployOkW podVW [volSecOptVW] [] =
      (match handleSecretVolume deployOkW podVW volSecOptVW ⟨"sec", [], none, some true⟩
          ⟨"sec", "default", []⟩ with
        | (calls, some e) => ([] ++ calls, some e)
        | (calls, none) => deployVolumesAux getCMnfW getSecNfW deployOkW podVW [] ([] ++ calls))) :=
  ⟨(deployVolumes_fetchErrors getCMerrW getSecNfW deployOkW podVW).1 volCMReqVW [] []
      ⟨"cm", [], none, none⟩ (.other "boom") rfl rfl (by simp),
    (deployVolumes_fetchErrors getCMnfW getSecNfW deployOkW podVW).2.1 volCMOptVW [] []
      ⟨"cm", [], none, some true⟩ rfl rfl rfl,
    (deployVolumes_fetchErrors getCMnfW getSecNfW deployOkW podVW).2.2.1 volSecReqVW [] []
      ⟨"sec", [], none, none⟩ FetchErr.notFound rfl rfl rfl (by simp [optBool]),
    (deployVolumes_fetchErrors getCMnfW getSecNfW deployOkW podVW).2.2.2 volSecOptVW [] []
      ⟨"sec", [], none, some true⟩ rfl rfl rfl rfl⟩


/-! ### Image resolution (C4) -/

/-- The claim's match predicate: every non-empty field of the request `tags`
equals the corresponding field parsed from the image name. -/
def specNameMatches (name : String) (tags : BootImageTags) : Bool :=
  let bit := BootImageTags.Set zeroBIT name
  ((tags.Company == "") || (bit.Company == tags.Company)) &&
  (((tags.Product == "") || (bit.Product == tags.Product)) &&
  (((tags.Version == "") || (bit.Version == tags.Version)) &&
  (((tags.Date == "") || (bit.Date == tags.Date)) &&
  (((tags.Time == "") || (bit.Time == tags.Time)) && true))))

/-- The claim's comparison key order (amended to the code's `ParseUint`
semantics): version ascending, then timestamp ascending. -/
def specImageLE (a b : Image) : Prop :=
  imageVersionKey a.Name < imageVersionKey b.Name ∨
    (imageVersionKey a.Name = imageVersionKey b.Name ∧
      imageTimeKey a.Name ≤ imageTimeKey b.Name)

instance (a b : Image) : Decidable (specImageLE a b) := by
  unfold specImageLE; infer_instance

theorem matches_field_step (c b : String) (X : Bool) :
    (if c ≠ "" ∧ b ≠ c then false else X) = (((c == "") || (b == c)) && X) := by
  by_cases h1 : c = ""
  · simp [h1]
  · by_cases h2 : b = c <;> simp [h1, h2]

theorem Matches_eq_specNameMatches (name : String) (tags : BootImageTags) :
    (BootImageTags.Set zeroBIT name).Matches tags = specNameMatches name tags := by
  rw [BootImageTags.Matches, specNameMatches,
    matches_field_step tags.Time _ true,
    matches_field_step tags.Date _ _,
    matches_field_step tags.Version _ _,
    matches_field_step tags.Product _ _,
    matches_field_step tags.Company _ _]

theorem imageLE_iff (a b : Image) : imageLE a b ↔ specImageLE a b := by
  unfold imageLE imageLess specImageLE
  by_cases h : imageVersionKey b.Name = imageVersionKey a.Name
  · rw [if_neg (fun hc => hc h)]
    rw [Bool.not_eq_true', decide_eq_false_iff_not, Nat.not_lt]
    constructor
    · intro ht
      exact Or.inr ⟨h.symm, ht⟩
    · rintro (hlt | ⟨heq, hle⟩)
      · omega
      · exact hle
  · rw [if_pos h]
    rw [Bool.not_eq_true', decide_eq_false_iff_not, Nat.not_lt]
    constructor
    · intro hle
      left
      omega
    · rintro (hlt | ⟨heq, hle⟩)
      · omega
      · exact absurd heq.symm h

instance : IsTotal Image imageLE :=
  ⟨fun a b => by
    rw [imageLE_iff, imageLE_iff]
    unfold specImageLE
    omega⟩

instance : IsTrans Image imageLE :=
  ⟨fun a b c h1 h2 => by
    rw [imageLE_iff] at h1 h2 ⊢
    unfold specImageLE at h1 h2 ⊢
    omega⟩

theorem imageLE_refl (a : Image) : imageLE a a := by
  rw [imageLE_iff]
  unfold specImageLE
  omega

theorem pairwise_le_getLast {r : Image → Image → Prop} (hrefl : ∀ a, r a a)
    (l : List Image) (hne : l ≠ []) (hp : l.Pairwise r)
    (x : Image) (hx : x ∈ l) : r x (l.getLast hne) := by
  induction l with
  | nil => exact absurd rfl hne
  | cons a t ih =>
    cases t with
    | nil =>
      have hxa : x = a := by simpa using hx
      subst hxa
      exact hrefl x
    | cons b t' =>
      rw [List.getLast_cons (by simp)]
      rcases List.mem_cons.mp hx with h | h
      · subst h
        exact (List.pairwise_cons.mp hp).1 _ (List.getLast_mem (by simp))
      · exact ih (by simp) (List.pairwise_cons.mp hp).2 h

/-- C4 (amended): `GetBestImage` fails exactly when no candidate's parsed
name matches every non-empty request field; otherwise it returns the id of a
matching candidate that is maximal in the order (version ascending, then
timestamp ascending), where the version is Go's `ParseUint(v, 10, 32)` with
the error ignored — 0 on a syntax error but `2^32 - 1` on range overflow —
and the timestamp is `YYYYMMDD HHMMSS` with epoch zero on parse failure. -/
theorem getBestImage_spec (images : List Image) (tags : BootImageTags) :
    ((GetBestImage images tags).isOk = false ↔
      ∀ img ∈ images, specNameMatches img.Name tags = false) ∧
    (∀ id, GetBestImage images tags = .ok id →
      images.any (fun best => (best.Id == id) && specNameMatches best.Name tags &&
        images.all (fun o => (!specNameMatches o.Name tags) || decide (specImageLE o best)))
        = true) := by
  have hfilter : FilterImages images tags =
      images.filter (fun i => specNameMatches i.Name tags) := by
    unfold FilterImages
    exact List.filter_congr (fun img _ => Matches_eq_specNameMatches img.Name tags)
  have hsorted_nil : (SortImages (FilterImages images tags) = []) ↔
      (∀ img ∈ images, specNameMatches img.Name tags = false) := by
    unfold SortImages
    constructor
    · intro h img hm
      have hlen := (List.perm_insertionSort imageLE (FilterImages images tags)).length_eq
      rw [h] at hlen
      have hnil : FilterImages images tags = [] := List.eq_nil_of_length_eq_zero hlen.symm
      rw [hfilter] at hnil
      have := List.filter_eq_nil_iff.mp hnil img hm
      simpa using this
    · intro h
      have hnil : FilterImages images tags = [] := by
        rw [hfilter]
        exact List.filter_eq_nil_iff.mpr (fun a ha => by simp [h a ha])
      rw [hnil]
      rfl
  constructor
  · unfold GetBestImage
    by_cases h : SortImages (FilterImages images tags) = []
    · simp only [dif_pos h]
      exact ⟨fun _ => hsorted_nil.mp h, fun _ => rfl⟩
    · simp only [dif_neg h]
      constructor
      · intro hx
        exact absurd (show (true : Bool) = false from hx) (by decide)
      · intro hall
        exact absurd (hsorted_nil.mpr hall) h
  · intro id hid
    unfold GetBestImage at hid
    by_cases h : SortImages (FilterImages images tags) = []
    · rw [dif_pos h] at hid; cases hid
    · rw [dif_neg h] at hid
      injection hid with hid
      have hbestmem : (SortImages (FilterImages images tags)).getLast h ∈
          SortImages (FilterImages images tags) := List.getLast_mem h
      set best := (SortImages (FilterImages images tags)).getLast h with hbdef
      have hbest_filter : best ∈ FilterImages images tags :=
        (List.mem_insertionSort imageLE).mp hbestmem
      rw [hfilter] at hbest_filter
      have hbest := List.mem_filter.mp hbest_filter
      refine List.any_eq_true.mpr ⟨best, hbest.1, ?_⟩
      have hpair : (SortImages (FilterImages images tags)).Pairwise imageLE :=
        List.sorted_insertionSort imageLE (FilterImages images tags)
      have hmax : ∀ o ∈ images, specNameMatches o.Name tags = true →
          specImageLE o best := by
        intro o ho hmo
        have hof : o ∈ FilterImages images tags := by
          rw [hfilter]
          exact List.mem_filter.mpr ⟨ho, hmo⟩
        have hos : o ∈ SortImages (FilterImages images tags) :=
          (List.mem_insertionSort imageLE).mpr hof
        have hle := pairwise_le_getLast imageLE_refl
          (SortImages (FilterImages images tags)) h hpair o hos
        rw [← hbdef] at hle
        exact (imageLE_iff o best).mp hle
      rw [← hid]
      simp only [beq_self_eq_true, Bool.true_and, hbest.2, Bool.true_and]
      refine List.all_eq_true.mpr ?_
      intro o ho
      by_cases hmo : specNameMatches o.Name tags = true
      · simp [hmo, hmax o ho hmo]
      · simp [Bool.eq_false_iff.mpr hmo]

/-- C4 witness inputs: the spec's image-selection scenario. -/
def imagesScenario : List Image :=
  [⟨"id1", "kip-itzo-1-20240101-010000"⟩,
   ⟨"id2", "kip-itzo-2-20230101-010000"⟩,
   ⟨"id3", "kip-itzo-2-20240601-010000"⟩]

def tagsScenario : BootImageTags := ⟨"", "itzo", "", "", ""⟩

theorem getBestImage_spec_witness :
    GetBestImage imagesScenario tagsScenario = .ok "id3" ∧
    imagesScenario.any (fun best => (best.Id == "id3") &&
      specNameMatches best.Name tagsScenario &&
      imagesScenario.all (fun o => (!specNameMatches o.Name tagsScenario) ||
        decide (specImageLE o best))) = true :=
  ⟨by rfl, (getBestImage_spec imagesScenario tagsScenario).2 "id3" (by rfl)⟩

/-- The version key the claim's words prescribe: the decimal parse of the
version field with 0 on any parse failure, including range overflow. -/
def claimVersionKey (name : String) : Nat :=
  let s := (BootImageTags.Set zeroBIT name).Version
  if s.toList ≠ [] ∧ allDigits s.toList = true ∧ digitsVal s.toList ≤ 4294967295 then
    digitsVal s.toList
  else 0

/-- The claim's comparison order taken verbatim ("0 on parse failure"). -/
def claimImageLE (a b : Image) : Prop :=
  claimVersionKey a.Name < claimVersionKey b.Name ∨
    (claimVersionKey a.Name = claimVersionKey b.Name ∧
      imageTimeKey a.Name ≤ imageTimeKey b.Name)

instance : DecidableRel claimImageLE := fun a b => by
  unfold claimImageLE; infer_instance

/-- Image resolution following the claim's words verbatim (version parse
failure → 0), for comparison with the code's `GetBestImage`. -/
def GetBestImageClaim (images : List Image) (tags : BootImageTags) :
    Except String String :=
  let sorted := (images.filter (fun i => specNameMatches i.Name tags)).insertionSort
    claimImageLE
  if h : sorted = [] then .error "No image matching tags found"
  else .ok ((sorted.getLast h).Id)

/-- C4 counterexample: with candidates of versions `4294967296` (overflowing
`uint32`) and `1`, Go's `ParseUint` yields `2^32 - 1` for the former — not 0
as the claim's "0 on parse failure" prescribes — so the code picks the
overflowing image (`idA`) while the claim's rule picks `idB`. -/
theorem getBestImage_rangeOverflow_cex :
    GetBestImage
      [⟨"idA", "c-p-4294967296-20240101-010000"⟩, ⟨"idB", "c-p-1-20240101-010000"⟩]
      zeroBIT = .ok "idA" ∧
    GetBestImageClaim
      [⟨"idA", "c-p-4294967296-20240101-010000"⟩, ⟨"idB", "c-p-1-20240101-010000"⟩]
      zeroBIT = .ok "idB" ∧
    ("idA" : String) ≠ "idB" := by
  refine ⟨by rfl, by rfl, by decide⟩

end Kip
